import Mathlib

/-!
Verification development for the internal-price-oracle-with-wallet-balancer
repository.  The TypeScript sources are shallowly embedded:

* `price-oracle/src/services/oracle/aggregator.ts` — the aggregator
  (`getConsolidatedPrice`, `isValid`, `rescale`, `medianBigInt`,
  `getSortedRescaledPrices`, `calculateMedianPrice`);
* `wallet-balancer/core/TriggerEvaluator.ts` — the trigger evaluator
  (`evaluateTrigger`, `isThresholdMet`, `calculateTransferAmount`,
  `getTimeSinceLastTrigger`, `convertBigIntToNumber`) and the EOA execution
  engine (`executeTransfer`, `generateIdempotencyKey`);
* `wallet-balancer/repositories/TransferIntentRepository.ts` — the intent
  store operations (`insertPlanned`, `updateStatus`, `findByIdempotencyKey`).

JavaScript `bigint` values are embedded as `Int` (with `Int.tdiv` / `Int.tmod`
for `bigint` `/` and `%`, which truncate toward zero exactly as `bigint`
arithmetic does).  JavaScript `number` values are embedded as exact fractions
(`Frac` below), and every floating-point operation performed by the source is
made explicit by a binary64 rounding step `roundDouble` (round to nearest,
ties to even, 53-bit significand; overflow and subnormal ranges are outside
the magnitudes exercised here and are not modelled).
-/

set_option maxRecDepth 8192

namespace PO

/-- Unnormalized fraction `num / den` with positive denominator by
construction; used to embed JavaScript `number` values and the exact rational
intermediate results of arithmetic on them.  (Mathlib's `ℚ` normalizes through
`Nat.gcd`, which the kernel cannot evaluate, so witnesses could not be checked
by `decide`; this representation avoids normalization.) -/
structure Frac where
  num : Int
  den : Int
deriving DecidableEq, Repr

def Frac.ofInt (n : Int) : Frac := ⟨n, 1⟩

def Frac.add (a b : Frac) : Frac := ⟨a.num * b.den + b.num * a.den, a.den * b.den⟩

def Frac.sub (a b : Frac) : Frac := ⟨a.num * b.den - b.num * a.den, a.den * b.den⟩

def Frac.mul (a b : Frac) : Frac := ⟨a.num * b.num, a.den * b.den⟩

def Frac.neg (a : Frac) : Frac := ⟨-a.num, a.den⟩

/-- Division; keeps the denominator positive whatever the sign of `b`.
Division by an exact zero (JavaScript `Infinity`/`NaN`) is not modelled. -/
def Frac.div (a b : Frac) : Frac :=
  if 0 ≤ b.num then ⟨a.num * b.den, a.den * b.num⟩
  else ⟨-(a.num * b.den), -(a.den * b.num)⟩

/-- Comparison `a ≤ b`, valid because denominators are positive. -/
def Frac.le (a b : Frac) : Bool := a.num * b.den ≤ b.num * a.den

/-- Floor of the fraction (denominator positive). -/
def Frac.floor (a : Frac) : Int := Int.fdiv a.num a.den

/-- Rational value of a `Frac` (for specification-level statements). -/
def Frac.val (a : Frac) : ℚ := (a.num : ℚ) / (a.den : ℚ)

/-- Number of binary digits of `n`, by fuelled structural recursion so the
kernel can evaluate it; 256 bits of fuel covers every magnitude used here. -/
def bitLenAux : Nat → Nat → Nat
  | 0, _ => 0
  | f + 1, n => if n = 0 then 0 else bitLenAux f (n / 2) + 1

def bitLen (n : Nat) : Nat := bitLenAux 256 n

/-- Power of two as a `Frac`, for any integer exponent. -/
def pow2 (k : Int) : Frac :=
  if 0 ≤ k then ⟨2 ^ k.toNat, 1⟩ else ⟨1, 2 ^ (-k).toNat⟩

/-- Round a positive fraction to the nearest integer, ties to even. -/
def rne (a : Frac) : Int :=
  let n := a.floor
  let r2 := 2 * (a.num - n * a.den)
  if r2 < a.den then n
  else if a.den < r2 then n + 1
  else if n % 2 = 0 then n else n + 1

/-- Exponent `e` with `2^e ≤ a < 2^(e+1)` for positive `a ≥ 2^-64`. -/
def floorLog2F (a : Frac) : Int :=
  (bitLen (Int.toNat ((a.mul (pow2 64)).floor)) : Int) - 65

/-- Binary64 rounding of a positive fraction: round to the nearest multiple
of `2^(e-52)` where `2^e ≤ a < 2^(e+1)`, ties to even. -/
def roundDoublePos (a : Frac) : Frac :=
  let s := floorLog2F a - 52
  (Frac.ofInt (rne (a.mul (pow2 (-s))))).mul (pow2 s)

/-- Binary64 rounding (round to nearest, ties to even).  Models the value a
JavaScript engine stores after any arithmetic step or `Number(bigint)`
conversion.  Overflow/subnormals are outside the magnitudes used here. -/
def roundDouble (a : Frac) : Frac :=
  if a.num = 0 then ⟨0, 1⟩
  else if a.num < 0 then (roundDoublePos a.neg).neg
  else roundDoublePos a

/-- JavaScript `Number(bigint)` conversion. -/
def jsNum (n : Int) : Frac := roundDouble (Frac.ofInt n)

/-- JavaScript floating-point addition. -/
def fadd (a b : Frac) : Frac := roundDouble (a.add b)

/-- JavaScript floating-point subtraction. -/
def fsub (a b : Frac) : Frac := roundDouble (a.sub b)

/-- JavaScript floating-point multiplication. -/
def fmul (a b : Frac) : Frac := roundDouble (a.mul b)

/-- JavaScript floating-point division. -/
def fdiv (a b : Frac) : Frac := roundDouble (a.div b)

/-- JavaScript `Math.round` (round half toward positive infinity),
`⌊x + 1/2⌋` on the exact value of the double. -/
def jsMathRound (a : Frac) : Int := Int.fdiv (2 * a.num + a.den) (2 * a.den)

/-! Data model of `price-oracle/src/types/index.ts`.  Fields the aggregator
never reads (`volume24h`, latency metadata, `timestamp`/`lastUpdated`
millisecond copies of the consolidation instant) are omitted. -/

/-- Oracle source tags (`OracleSource` without the aggregator's own output
tag `nexo`, which no adapter ever produces as a candidate). -/
inductive Source
  | chainlink
  | pyth
  | uniswapV3Twap
  | api3
deriving DecidableEq, Repr

/-- Aggregation mode (`Mode`). -/
inductive Mode
  | normal
  | degraded
  | frozen
deriving DecidableEq, Repr

/-- Source-specific `meta` fields read by `isValid`.  A Pyth confidence is
modelled in its `bigint` form, the branch the aggregator evaluates with exact
integer arithmetic; the alternative `number`-typed confidence branch is
floating point and is noted where relevant. -/
structure Meta where
  confidence : Option Int
  poolAddress : Option String
  windowSec : Option Int
  harmonicMeanLiquidity : Option Int
deriving DecidableEq, Repr

def Meta.empty : Meta := ⟨none, none, none, none⟩

/-- One candidate quote (`PriceData`). -/
structure PriceData where
  source : Source
  price : Int
  priceDecimals : Nat
  atSec : Int
  meta : Meta
deriving DecidableEq, Repr

/-- Entry of the `sourcesUsed` audit trail of a `ConsolidatedPrice`. -/
structure SourceUsed where
  source : Source
  price : Int
  priceDecimals : Nat
  atSec : Int
deriving DecidableEq, Repr

/-- The consolidated output (`ConsolidatedPrice`); `source` is constantly
the string `nexo` and is omitted. -/
structure ConsolidatedPrice where
  price : Int
  priceDecimals : Nat
  atSec : Int
  mode : Mode
  sourcesUsed : List SourceUsed
deriving DecidableEq, Repr

/-- Token configuration fields read by the aggregator (`TokenConfig`). -/
structure TokenConfig where
  minLiquidity : Option Int
  twapWindow : Option Int
  allowedPools : Option (List String)
  ttlBySource : Source → Option Int
  epsilon : Option Frac
  deltaBps : Option Int

/-- Per-source TTL defaults (`DEFAULTS.ttl`). -/
def defaultTtl : Source → Int
  | .chainlink => 300
  | .pyth => 30
  | .uniswapV3Twap => 1800
  | .api3 => 300

/-- Default confidence ceiling (`DEFAULTS.epsilon = 0.01`, exactly
representable here; the stored binary64 value differs from 1/100 by an
amount that does not affect any comparison made with it in this file). -/
def defaultEpsilon : Frac := ⟨1, 100⟩

/-- Canonical scale (`SCALE_DECIMALS`). -/
def SCALE_DECIMALS : Nat := 18

/-- Pyth confidence gate for a `bigint` confidence, from `isValid` lines
170-173 of `aggregator.ts`: `confidence * 1_000_000n ≤ price *
BigInt(Math.round(epsilon * 1_000_000))`.  The product `epsilon * 1_000_000`
is a floating-point multiplication, hence the `fmul`. -/
def pythConfidenceOk (confidence price : Int) (epsilon : Frac) : Bool :=
  confidence * 1000000 ≤ price * jsMathRound (fmul epsilon ⟨1000000, 1⟩)

/-- Validation gate (`PriceOracleAggregator.isValid`): freshness TTL, Pyth
confidence (when a `bigint` confidence is present) and Uniswap-v3 TWAP
guards.  `now` is `Math.floor(Date.now() / 1000)` at validation time. -/
def isValid (p : PriceData) (cfg : TokenConfig) (now : Int) : Bool :=
  let ttl := (cfg.ttlBySource p.source).getD (defaultTtl p.source)
  let isStale := decide (ttl < now - p.atSec)
  let confidenceOk :=
    match p.source, p.meta.confidence with
    | .pyth, some c => pythConfidenceOk c p.price (cfg.epsilon.getD defaultEpsilon)
    | _, _ => true
  let twapOk :=
    match p.source with
    | .uniswapV3Twap =>
      let minLiquidity := cfg.minLiquidity.getD 0
      let twapWindow := cfg.twapWindow.getD 0
      let allowedPools := cfg.allowedPools.getD []
      let liq := p.meta.harmonicMeanLiquidity.getD 0
      let windowSec := p.meta.windowSec.getD 0
      match p.meta.poolAddress with
      | some pool =>
        allowedPools.contains pool && decide (twapWindow ≤ windowSec)
          && decide (minLiquidity ≤ liq)
      | none => false
    | _ => true
  !isStale && confidenceOk && twapOk

/-- Decimal rescaling (`PriceOracleAggregator.rescale`); the dividing branch
uses `bigint` division, which truncates toward zero (`Int.tdiv`). -/
def rescale (value : Int) (fromDecimals toDecimals : Nat) : Int :=
  if fromDecimals = toDecimals then value
  else if toDecimals < fromDecimals then value.tdiv (10 ^ (fromDecimals - toDecimals))
  else value * 10 ^ (toDecimals - fromDecimals)

/-- Ascending insertion into a sorted list. -/
def insertAsc (x : Int) : List Int → List Int
  | [] => [x]
  | y :: ys => if x ≤ y then x :: y :: ys else y :: insertAsc x ys

/-- Ascending sort; models `Array.prototype.sort` with the comparator
`(a, b) => (a > b ? 1 : -1)`, whose result is the ascending value sequence. -/
def sortAsc (l : List Int) : List Int := l.foldr insertAsc []

/-- Rescale every candidate to the canonical 18 decimals and sort ascending
(`PriceOracleAggregator.getSortedRescaledPrices` at its default target). -/
def getSortedRescaledPrices (values : List PriceData) : List Int :=
  sortAsc (values.map (fun v => rescale v.price v.priceDecimals SCALE_DECIMALS))

/-- Median of a sorted `bigint` array (`PriceOracleAggregator.medianBigInt`):
middle element for odd length, truncated average of the two middle elements
for even length (`mid = n >> 1`, parity by `n & 1`). -/
def medianBigInt (values : List Int) : Int :=
  let n := values.length
  let mid := n / 2
  if n % 2 = 1 then values.getD mid 0
  else (values.getD (mid - 1) 0 + values.getD mid 0).tdiv 2

/-- Median price over the validated set
(`PriceOracleAggregator.calculateMedianPrice`). -/
def calculateMedianPrice (valid : List PriceData) : Int × Nat :=
  (medianBigInt (getSortedRescaledPrices valid), SCALE_DECIMALS)

/-- Audit-trail projection used for `sourcesUsed` in `getConsolidatedPrice`. -/
def sourceUsedOf (p : PriceData) : SourceUsed :=
  ⟨p.source, p.price, p.priceDecimals, p.atSec⟩

/-- Outcome of one `getConsolidatedPrice` call: the returned (or thrown)
result together with the Last-Good cell for the token after the call. -/
structure AggOutcome where
  result : Except String ConsolidatedPrice
  lastGoodAfter : Option ConsolidatedPrice
deriving Repr

/-- Core of `PriceOracleAggregator.getConsolidatedPrice`.  The adapter
fan-out is I/O, so the gathered `candidates` list is a parameter; `lastGood`
is the Last-Good store cell for the token and `now` the consolidation
instant in epoch seconds.  Every successful branch persists exactly the
value it returns (`putLastGood` then `return`); the error branch persists
nothing. -/
def getConsolidatedPrice (candidates : List PriceData) (cfg : TokenConfig)
    (lastGood : Option ConsolidatedPrice) (now : Int) : AggOutcome :=
  let validated := candidates.filter (fun p => isValid p cfg now)
  match validated with
  | [] =>
    match lastGood with
    | none => ⟨.error "No valid price and no last-good", lastGood⟩
    | some last =>
      let frozen : ConsolidatedPrice :=
        { last with mode := .frozen, sourcesUsed := [] }
      ⟨.ok frozen, some frozen⟩
  | [only] =>
    let consolidated : ConsolidatedPrice :=
      { price := only.price
        priceDecimals := only.priceDecimals
        atSec := now
        mode := .degraded
        sourcesUsed := [only].map sourceUsedOf }
    ⟨.ok consolidated, some consolidated⟩
  | _ :: _ :: _ =>
    let m := calculateMedianPrice validated
    let consolidated : ConsolidatedPrice :=
      { price := m.1
        priceDecimals := m.2
        atSec := now
        mode := .normal
        sourcesUsed := validated.map sourceUsedOf }
    ⟨.ok consolidated, some consolidated⟩

/-- Validated survivors of a candidate list, for stating properties. -/
def validatedOf (candidates : List PriceData) (cfg : TokenConfig) (now : Int) :
    List PriceData :=
  candidates.filter (fun p => isValid p cfg now)

/-- Median rule as the specification words it (§4.3): over the ascending
rescaled sequence, for odd `n` the element at index `(n-1)/2`, for even `n`
the value `(a[n/2-1] + a[n/2]) / 2` with integer division truncating toward
zero.  Stated separately from `medianBigInt` so the two can be compared. -/
def specMedianPrice (sorted : List Int) : Int :=
  let n := sorted.length
  if n % 2 = 1 then sorted.getD ((n - 1) / 2) 0
  else (sorted.getD (n / 2 - 1) 0 + sorted.getD (n / 2) 0).tdiv 2

end PO

namespace WB

open PO (Frac fadd fsub fmul fdiv jsNum roundDouble)

/-! Data model of `wallet-balancer/types.ts`. -/

inductive Direction
  | hotToCold
  | coldToHot
deriving DecidableEq, Repr

inductive ExecutionMode
  | eoa
  | safePropose
  | safeExecute
deriving DecidableEq, Repr

inductive IntentStatus
  | planned
  | proposed
  | submitted
  | minedSuccess
  | minedFailed
deriving DecidableEq, Repr

inductive MoveAmountType
  | absolute
  | percent
deriving DecidableEq, Repr

/-- A balancer trigger (`Trigger`); the address/symbol/chain fields the
evaluator never reads are omitted.  `threshold`, `moveAmount` and
`hysteresisBps` are JavaScript numbers, embedded as `Frac` (the exact value
of the stored binary64 double). -/
structure Trigger where
  id : Int
  threshold : Frac
  direction : Direction
  moveAmountType : MoveAmountType
  moveAmount : Frac
  executionMode : ExecutionMode
  hysteresisBps : Frac
  cooldownSec : Int
  enabled : Bool
deriving DecidableEq, Repr

/-- Price message consumed by the evaluator (`ConsolidatedPriceMsg`);
`token`, `chainId` and `mode` are never read by `evaluateTrigger`. -/
structure ConsolidatedPriceMsg where
  price : Int
  priceDecimals : Nat
  atVal : Int
deriving DecidableEq, Repr

/-- A fired signal (`TriggerSignal`). -/
structure TriggerSignal where
  triggerId : Int
  price : Int
  priceDecimals : Nat
  direction : Direction
  amount : Int
  executionMode : ExecutionMode
  timestamp : Int
deriving DecidableEq, Repr

/-- Durable transfer intent row (`TransferIntentPlan`); `createdAt` and
`updatedAt` are epoch milliseconds. -/
structure Intent where
  idempotencyKey : String
  triggerId : Int
  priceAt : Int
  amount : Int
  fromAddress : String
  toAddress : String
  mode : ExecutionMode
  status : IntentStatus
  txHash : Option String
  createdAt : Int
  updatedAt : Int
deriving DecidableEq, Repr

/-! Intent store (`TransferIntentRepository`), embedded as a list of rows.
`idempotencyKey` carries a unique index in the schema; `updateStatus`
updates every row matching the key (at most one). -/

def findByIdempotencyKey (store : List Intent) (key : String) : Option Intent :=
  store.find? (fun i => i.idempotencyKey == key)

def insertPlanned (store : List Intent) (intent : Intent) : List Intent :=
  store ++ [intent]

/-- Row-level effect of `updateStatus` on one row: set the status and, when
a transaction hash is supplied, the `txHash` column, on rows matching the
key. -/
def applyStatus (key : String) (status : IntentStatus) (txHash : Option String)
    (i : Intent) : Intent :=
  if i.idempotencyKey == key then
    { i with status := status,
             txHash := match txHash with | some t => some t | none => i.txHash }
  else i

/-- `updateStatus(idempotencyKey, status, txHash?)`: updates every row
matching the unique key. -/
def updateStatus (store : List Intent) (key : String) (status : IntentStatus)
    (txHash : Option String) : List Intent :=
  store.map (applyStatus key status txHash)

/-! The trigger evaluator (`wallet-balancer/core/TriggerEvaluator.ts`). -/

/-- Conversion of a `bigint` price to a JavaScript number
(`TriggerEvaluator.convertBigIntToNumber`): integer quotient and remainder
by `10^decimals`, each converted with `Number(...)`, the remainder divided
by the converted divisor in floating point, and the two parts added in
floating point.  `BigInt(10 ** decimals)` is exact in binary64 for the
decimals used by every price source here (≤ 22). -/
def convertBigIntToNumber (price : Int) (decimals : Nat) : Frac :=
  let divisor : Int := 10 ^ decimals
  fadd (jsNum (price.tdiv divisor)) (fdiv (jsNum (price.tmod divisor)) (jsNum divisor))

/-- Threshold test with hysteresis (`TriggerEvaluator.isThresholdMet`),
computed on JavaScript numbers: `hysteresis = threshold * (hysteresisBps /
10000)`, then `currentPrice >= threshold + hysteresis` for `hot_to_cold`
and `currentPrice <= threshold - hysteresis` for `cold_to_hot`. -/
def isThresholdMet (trigger : Trigger) (currentPrice : Frac) : Bool :=
  let hysteresis := fmul trigger.threshold (fdiv trigger.hysteresisBps ⟨10000, 1⟩)
  match trigger.direction with
  | .hotToCold => Frac.le (fadd trigger.threshold hysteresis) currentPrice
  | .coldToHot => Frac.le currentPrice (fsub trigger.threshold hysteresis)

/-- Transfer amount (`TriggerEvaluator.calculateTransferAmount`).
`ABSOLUTE`: `BigInt(Math.floor(moveAmount * 1e18))`.  `PERCENT`:
`percentage = moveAmount / 100` then
`(balance * BigInt(Math.floor(percentage * 1e6))) / 1000000n`; the `/ 100`
and `* 1e6` are floating point, the rest is exact `bigint` arithmetic. -/
def calculateTransferAmount (trigger : Trigger) (currentBalance : Int) : Int :=
  match trigger.moveAmountType with
  | .absolute => (fmul trigger.moveAmount ⟨10 ^ 18, 1⟩).floor
  | .percent =>
    let percentage := fdiv trigger.moveAmount ⟨100, 1⟩
    (currentBalance * (fmul percentage ⟨1000000, 1⟩).floor).tdiv 1000000

/-- Latest `createdAt` among a list of intents; models taking the first
element after sorting by `createdAt` descending. -/
def latestCreatedAt : List Intent → Option Int
  | [] => none
  | i :: is =>
    match latestCreatedAt is with
    | none => some i.createdAt
    | some t => some (max i.createdAt t)

/-- Cooldown clock (`TriggerEvaluator.getTimeSinceLastTrigger`): consider
only intents whose status is `MINED_SUCCESS`, keep those of this trigger,
take the most recent by `createdAt`, and return
`Math.floor((now - createdAt) / 1000)` in seconds.  `none` models the
`Infinity` returned when no such intent exists. -/
def getTimeSinceLastTrigger (intents : List Intent) (triggerId : Int)
    (nowMs : Int) : Option Int :=
  let mined := intents.filter (fun i => decide (i.status = IntentStatus.minedSuccess))
  let ofTrigger := mined.filter (fun i => decide (i.triggerId = triggerId))
  match latestCreatedAt ofTrigger with
  | none => none
  | some t => some ((nowMs - t).fdiv 1000)

/-- The evaluator (`TriggerEvaluator.evaluateTrigger`).  The surrounding
`try`/`catch` returns `null` on any internal exception, so the function is
total into `Option`; `intents` is the intent store the repository reads and
`nowMs` the evaluation instant in epoch milliseconds.  Gate order follows
the source: enabled, cooldown (`Infinity < cooldownSec` is false, hence the
`none` branch proceeds), threshold, zero amount, balance sufficiency. -/
def evaluateTrigger (trigger : Trigger) (priceMsg : ConsolidatedPriceMsg)
    (currentBalance : Int) (intents : List Intent) (nowMs : Int) :
    Option TriggerSignal :=
  if !trigger.enabled then none
  else
    let blocked :=
      match getTimeSinceLastTrigger intents trigger.id nowMs with
      | none => false
      | some ts => decide (ts < trigger.cooldownSec)
    if blocked then none
    else
      let currentPrice := convertBigIntToNumber priceMsg.price priceMsg.priceDecimals
      if !isThresholdMet trigger currentPrice then none
      else
        let transferAmount := calculateTransferAmount trigger currentBalance
        if transferAmount = 0 then none
        else if currentBalance < transferAmount then none
        else some
          { triggerId := trigger.id
            price := priceMsg.price
            priceDecimals := priceMsg.priceDecimals
            direction := trigger.direction
            amount := transferAmount
            executionMode := trigger.executionMode
            timestamp := priceMsg.atVal }

/-! The EOA execution engine (`EOAExecutionEngine` in
`wallet-balancer/core/TriggerEvaluator.ts`). -/

def dirString : Direction → String
  | .hotToCold => "hot_to_cold"
  | .coldToHot => "cold_to_hot"

/-- Idempotency key (`EOAExecutionEngine.generateIdempotencyKey`): the data
string `` `${triggerId}-${timestamp}-${amount}-${direction}` `` built from
the signal.  The source then applies `keccak256` and keeps 16 hex
characters; that post-processing is a fixed deterministic function of this
string, so key determinism and equality of keys for equal signals are
unchanged by modelling the pre-hash string.  (The local `timestamp`
variable the source derives from `Date.now()` is unused.) -/
def generateIdempotencyKey (signal : TriggerSignal) : String :=
  toString signal.triggerId ++ "-" ++ toString signal.timestamp ++ "-"
    ++ toString signal.amount ++ "-" ++ dirString signal.direction

/-- Destination selection (`EOAExecutionEngine.getDestinationAddress`). -/
def getDestinationAddress (signerAddr : String) (signal : TriggerSignal) : String :=
  match signal.direction with
  | .hotToCold => "0x0000000000000000000000000000000000000000"
  | .coldToHot => signerAddr

/-- Result of one `executeTransfer` call: the value returned to the caller,
the intent store afterwards, how many times `sendTransaction` was invoked,
and the ordered status writes (`insertPlanned` plus `updateStatus` calls)
tagged by idempotency key. -/
structure ExecResult where
  result : Option Intent
  store : List Intent
  broadcasts : Nat
  writes : List (String × IntentStatus)
deriving Repr

/-- `EOAExecutionEngine.executeTransfer`.  Effects at the chain boundary
are parameters: `submitOutcome` is the transaction hash returned by
`sendTransaction` (`none` models the call throwing), `receiptOutcome` the
receipt's success flag (`none` models `waitForTransaction` throwing).  The
surrounding `try`/`catch` turns every throw into a `null` return after the
writes already performed.  With no signer configured the engine throws
before touching the store.  When a row with the derived key already exists
the engine returns it unchanged (re-attach).  On the happy path the engine
inserts the `PLANNED` row, broadcasts, writes `SUBMITTED` with the hash,
awaits the receipt and writes `MINED_SUCCESS` or `MINED_FAILED`; the value
returned to the caller is the locally constructed plan object. -/
def executeTransfer (hasSigner : Bool) (signerAddr : String)
    (signal : TriggerSignal) (store : List Intent) (nowMs : Int)
    (submitOutcome : Option String) (receiptOutcome : Option Bool) : ExecResult :=
  if !hasSigner then ⟨none, store, 0, []⟩
  else
    let key := generateIdempotencyKey signal
    match findByIdempotencyKey store key with
    | some existingIntent => ⟨some existingIntent, store, 0, []⟩
    | none =>
      let intent : Intent :=
        { idempotencyKey := key
          triggerId := signal.triggerId
          priceAt := signal.price
          amount := signal.amount
          fromAddress := signerAddr
          toAddress := getDestinationAddress signerAddr signal
          mode := .eoa
          status := .planned
          txHash := none
          createdAt := nowMs
          updatedAt := nowMs }
      let st1 := insertPlanned store intent
      match submitOutcome with
      | none => ⟨none, st1, 1, [(key, .planned)]⟩
      | some txHash =>
        let st2 := updateStatus st1 key .submitted (some txHash)
        match receiptOutcome with
        | none => ⟨none, st2, 1, [(key, .planned), (key, .submitted)]⟩
        | some success =>
          let final := if success then IntentStatus.minedSuccess else .minedFailed
          ⟨some intent, updateStatus st2 key final (some txHash), 1,
            [(key, .planned), (key, .submitted), (key, final)]⟩

/-- One engine invocation with its chain-boundary outcomes, for reasoning
about arbitrary interleavings of calls. -/
structure Call where
  hasSigner : Bool
  signerAddr : String
  signal : TriggerSignal
  nowMs : Int
  submitOutcome : Option String
  receiptOutcome : Option Bool

def execCall (c : Call) (store : List Intent) : ExecResult :=
  executeTransfer c.hasSigner c.signerAddr c.signal store c.nowMs
    c.submitOutcome c.receiptOutcome

/-- Sequential execution of a list of engine calls, accumulating the status
writes in order. -/
def runCalls : List Call → List Intent → List Intent × List (String × IntentStatus)
  | [], store => (store, [])
  | c :: cs, store =>
    let r := execCall c store
    let rest := runCalls cs r.store
    (rest.1, r.writes ++ rest.2)

/-- Status writes concerning one idempotency key, in order. -/
def writesFor (key : String) (ws : List (String × IntentStatus)) : List IntentStatus :=
  (ws.filter (fun p => p.1 == key)).map (fun p => p.2)

/-- The forward paths of the §4.6 status graph that the EOA engine can
produce, including the empty history for keys never written. -/
def allowedStatusPaths : List (List IntentStatus) :=
  [[], [.planned], [.planned, .submitted],
   [.planned, .submitted, .minedSuccess], [.planned, .submitted, .minedFailed]]

/-- Rows with a given idempotency key, counted. -/
def countKey (store : List Intent) (key : String) : Nat :=
  (store.filter (fun i => i.idempotencyKey == key)).length

/-- A key is present in the store. -/
def present (store : List Intent) (key : String) : Prop :=
  (findByIdempotencyKey store key).isSome = true

end WB

/-! Specification-side definitions, written from the wording of the
specification for comparison against the embedded source. -/

namespace SpecSide

/-- Threshold rule for a `HotToCold` rule as §4.5.3 of the specification
words it: the rule fires when `p ≥ thresholdUsd + h` with
`h = thresholdUsd × hysteresisBps / 10_000` and
`p = price / 10^decimals`, the comparison carried out by exact integer
cross-multiplication: `price × 10_000 ≥ thresholdUsd × 10^decimals ×
(10_000 + hysteresisBps)`. -/
def hotToColdFires (price : Int) (decimals : Nat) (thresholdUsd hysteresisBps : Int) :
    Prop :=
  thresholdUsd * 10 ^ decimals * (10000 + hysteresisBps) ≤ price * 10000

/-- Confidence gate as §4.2 of the specification words it at scale
`k = 10^6`: `confidence × 10^6 ≤ price × floor(epsilon × 10^6)`, the
quantized `epsilon` obtained by `floor` on the exact product. -/
def confidenceGateFloor (confidence price : Int) (epsilon : PO.Frac) : Prop :=
  confidence * 1000000 ≤ price * (epsilon.mul ⟨1000000, 1⟩).floor

end SpecSide

/-! Concrete fixtures used by counterexamples and witnesses. -/

namespace FX

open PO WB

/-- Shared consolidation instant (epoch seconds). -/
def t0 : Int := 1700000000

/-- Token configuration with no overrides: default TTLs and default
epsilon. -/
def cfgDefault : TokenConfig :=
  { minLiquidity := none, twapWindow := none, allowedPools := none,
    ttlBySource := fun _ => none, epsilon := none, deltaBps := none }

/-- A fresh Chainlink quote for 2000 dollars at the feed's native 8
decimals. -/
def quoteCl : PriceData := ⟨.chainlink, 200000000000, 8, t0, Meta.empty⟩

/-- A fresh Pyth quote for 1999.9 dollars at 18 decimals with a tight
confidence (0.025 percent of the price). -/
def quotePyth : PriceData :=
  ⟨.pyth, 1999900000000000000000, 18, t0,
    { Meta.empty with confidence := some 500000000000000000 }⟩

/-- A Chainlink quote 400 seconds old, past the 300-second default TTL. -/
def quoteStale : PriceData := ⟨.chainlink, 200000000000, 8, t0 - 400, Meta.empty⟩

/-- A last-good consolidated price at the canonical scale. -/
def lastGoodNormal : ConsolidatedPrice :=
  ⟨2000000000000000000000, 18, t0 - 60, .normal, []⟩

/-- The consolidated price the degraded path produces from `quoteCl`. -/
def degradedCl : ConsolidatedPrice :=
  ⟨200000000000, 8, t0, .degraded, [⟨.chainlink, 200000000000, 8, t0⟩]⟩

/-- Base trigger: 2000-dollar threshold, hot-to-cold, 50 percent move, no
hysteresis, one-hour cooldown, enabled, EOA execution. -/
def trigBase : Trigger :=
  { id := 1, threshold := ⟨2000, 1⟩, direction := .hotToCold,
    moveAmountType := .percent, moveAmount := ⟨50, 1⟩,
    executionMode := .eoa, hysteresisBps := ⟨0, 1⟩, cooldownSec := 3600,
    enabled := true }

/-- Trigger configured with `moveAmount = 5000`, the way the claimed
basis-point reading of S5 would configure 5000 bps. -/
def trigPct5000 : Trigger := { trigBase with moveAmount := ⟨5000, 1⟩ }

/-- Trigger whose percent amount is zero. -/
def trigPct0 : Trigger := { trigBase with moveAmount := ⟨0, 1⟩ }

/-- Evaluation instant in epoch milliseconds. -/
def t0ms : Int := 1700000000000

/-- Price message one integer unit below 2000 dollars at 18 decimals. -/
def msgJustBelow : ConsolidatedPriceMsg := ⟨2000 * 10 ^ 18 - 1, 18, t0ms⟩

/-- Price message at 2500 dollars, 18 decimals. -/
def msg2500 : ConsolidatedPriceMsg := ⟨2500 * 10 ^ 18, 18, t0ms⟩

/-- The signal `trigBase` emits for `msg2500` over a ten-token balance. -/
def sig2500 : TriggerSignal :=
  ⟨1, 2500 * 10 ^ 18, 18, .hotToCold, 5 * 10 ^ 18, .eoa, t0ms⟩

/-- Small signal used for the engine idempotency witness. -/
def sigSmall : TriggerSignal := ⟨7, 250000, 8, .coldToHot, 42, .eoa, 1000⟩

/-- A `MINED_SUCCESS` intent for trigger 1 created at `t0ms`. -/
def intentMined : Intent :=
  ⟨"k1", 1, 2500 * 10 ^ 18, 5 * 10 ^ 18, "0xhot", "0xcold", .eoa,
    .minedSuccess, some "0xtx", t0ms, t0ms⟩

/-- The signal `trigBase` emits for `msgJustBelow` over a ten-token
balance. -/
def sigBelow : TriggerSignal :=
  ⟨1, 2000 * 10 ^ 18 - 1, 18, .hotToCold, 5 * 10 ^ 18, .eoa, t0ms⟩

/-- The `PLANNED` row the engine inserts for `sig2500` when the broadcast
throws. -/
def intentPlanned2500 : Intent :=
  ⟨generateIdempotencyKey sig2500, 1, 2500 * 10 ^ 18, 5 * 10 ^ 18, "0xhot",
    "0x0000000000000000000000000000000000000000", .eoa, .planned, none,
    t0ms, t0ms⟩

end FX

open PO WB FX

/-! Shared helper lemmas. -/

/-- The source's `medianBigInt` (`mid = n >> 1`, parity by `n & 1`) computes
exactly the specification's median rule over the same sorted list. -/
theorem medianBigInt_eq_specMedianPrice (l : List Int) :
    medianBigInt l = specMedianPrice l := by
  unfold medianBigInt specMedianPrice
  by_cases h : l.length % 2 = 1
  · have hidx : l.length / 2 = (l.length - 1) / 2 := by omega
    simp [h, hidx]
  · simp [h]

/-! Claim C1. -/

/-- C1 counterexample: a run in which exactly one validated quote survives
(a fresh Chainlink quote at its native 8 decimals) returns and persists a
`ConsolidatedPrice` whose `priceDecimals` is 8, not the canonical 18, and
whose price is the quote's native value, not rescaled; so not every
persisted `ConsolidatedPrice` has `priceDecimals = 18`. -/
theorem c1_counterexample :
    ∃ cp, (getConsolidatedPrice [quoteCl] cfgDefault none t0).result = .ok cp ∧
      (getConsolidatedPrice [quoteCl] cfgDefault none t0).lastGoodAfter = some cp ∧
      cp.price = quoteCl.price ∧ cp.priceDecimals = 8 ∧ cp.priceDecimals ≠ 18 :=
  ⟨degradedCl, rfl, rfl, rfl, rfl, by decide⟩

/-- C1 amended: the canonical scale holds only for the Normal path: with two
or more validated quotes the persisted price carries `priceDecimals = 18`;
with exactly one validated quote the consolidated price is the quote's
native value at the quote's native decimals (no rescaling); with none it
carries the last-good's price and decimals unchanged. -/
theorem c1_amended (candidates : List PriceData) (cfg : TokenConfig)
    (lastGood : Option ConsolidatedPrice) (now : Int) (cp : ConsolidatedPrice)
    (hcp : (getConsolidatedPrice candidates cfg lastGood now).result = .ok cp) :
    (2 ≤ (validatedOf candidates cfg now).length → cp.priceDecimals = 18) ∧
    (∀ only, validatedOf candidates cfg now = [only] →
      cp.price = only.price ∧ cp.priceDecimals = only.priceDecimals) ∧
    (validatedOf candidates cfg now = [] →
      ∃ lg, lastGood = some lg ∧ cp.price = lg.price ∧
        cp.priceDecimals = lg.priceDecimals) := by
  rcases hl : validatedOf candidates cfg now with _ | ⟨a, _ | ⟨b, rest⟩⟩
  · have hf : candidates.filter (fun p => isValid p cfg now) = [] := hl
    rcases lastGood with _ | lg
    · simp [getConsolidatedPrice, hf] at hcp
    · simp only [getConsolidatedPrice, hf, Except.ok.injEq] at hcp
      subst hcp
      refine ⟨?_, ?_, fun _ => ⟨lg, rfl, rfl, rfl⟩⟩
      · intro h2; simp at h2
      · intro only honly; simp at honly
  · have hf : candidates.filter (fun p => isValid p cfg now) = [a] := hl
    simp only [getConsolidatedPrice, hf, Except.ok.injEq] at hcp
    subst hcp
    refine ⟨?_, ?_, ?_⟩
    · intro h2; simp at h2
    · intro only honly
      simp only [List.cons.injEq, and_true] at honly
      subst honly
      exact ⟨rfl, rfl⟩
    · intro h0; simp at h0
  · have hf : candidates.filter (fun p => isValid p cfg now) = a :: b :: rest := hl
    simp only [getConsolidatedPrice, hf, Except.ok.injEq] at hcp
    subst hcp
    refine ⟨fun _ => rfl, ?_, ?_⟩
    · intro only honly; simp at honly
    · intro h0; simp at h0

/-- C1 witness: the amended theorem applied to the concrete degraded run of
`c1_counterexample`. -/
theorem c1_witness :
    (getConsolidatedPrice [quoteCl] cfgDefault none t0).result = .ok degradedCl ∧
    validatedOf [quoteCl] cfgDefault t0 = [quoteCl] ∧
    degradedCl.price = quoteCl.price ∧
    degradedCl.priceDecimals = quoteCl.priceDecimals :=
  ⟨rfl, by decide,
    (c1_amended [quoteCl] cfgDefault none t0 degradedCl rfl).2.1 quoteCl (by decide)⟩

/-! Claim C3. -/

/-- C3: with two or more validated quotes, `getConsolidatedPrice` emits mode
Normal with `sourcesUsed` the validated set, and the price is the integer
median of the validated prices rescaled to 18 decimals and sorted
ascending — odd length takes index `(n-1)/2`, even length averages the two
middle elements with division truncating toward zero. -/
theorem c3_normal_median (candidates : List PriceData) (cfg : TokenConfig)
    (lastGood : Option ConsolidatedPrice) (now : Int)
    (h : 2 ≤ (validatedOf candidates cfg now).length) :
    ∃ cp, (getConsolidatedPrice candidates cfg lastGood now).result = .ok cp ∧
      cp.mode = .normal ∧
      cp.sourcesUsed = (validatedOf candidates cfg now).map sourceUsedOf ∧
      cp.priceDecimals = 18 ∧
      cp.price = specMedianPrice (getSortedRescaledPrices (validatedOf candidates cfg now)) := by
  rcases hl : validatedOf candidates cfg now with _ | ⟨a, _ | ⟨b, rest⟩⟩
  · rw [hl] at h; simp at h
  · rw [hl] at h; simp at h
  · have hf : candidates.filter (fun p => isValid p cfg now) = a :: b :: rest := hl
    refine ⟨⟨(calculateMedianPrice (a :: b :: rest)).1,
      (calculateMedianPrice (a :: b :: rest)).2, now, .normal,
      (a :: b :: rest).map sourceUsedOf⟩, ?_, rfl, ?_, rfl, ?_⟩
    · simp only [getConsolidatedPrice, hf]
    · rfl
    · exact medianBigInt_eq_specMedianPrice _

/-- C3 witness: the median theorem at a concrete two-source run
(Chainlink 2000 dollars at 8 decimals, Pyth 1999.9 dollars at 18): the
emitted price is the truncated average 1999.95 at 18 decimals. -/
theorem c3_witness :
    2 ≤ (validatedOf [quoteCl, quotePyth] cfgDefault t0).length ∧
    (∃ cp, (getConsolidatedPrice [quoteCl, quotePyth] cfgDefault none t0).result = .ok cp ∧
      cp.mode = .normal ∧
      cp.sourcesUsed = (validatedOf [quoteCl, quotePyth] cfgDefault t0).map sourceUsedOf ∧
      cp.priceDecimals = 18 ∧
      cp.price = specMedianPrice
        (getSortedRescaledPrices (validatedOf [quoteCl, quotePyth] cfgDefault t0))) ∧
    specMedianPrice (getSortedRescaledPrices (validatedOf [quoteCl, quotePyth] cfgDefault t0)) =
      1999950000000000000000 :=
  ⟨by decide, c3_normal_median [quoteCl, quotePyth] cfgDefault none t0 (by decide), by decide⟩

/-! Claim C4. -/

/-- C4: with zero validated quotes, `getConsolidatedPrice` returns and
persists a frozen copy of the last-good price and decimals with empty
`sourcesUsed` when a last-good exists, and fails with the
no-price-available error, persisting nothing, when none does. -/
theorem c4_frozen_or_error (candidates : List PriceData) (cfg : TokenConfig)
    (lastGood : Option ConsolidatedPrice) (now : Int)
    (h : validatedOf candidates cfg now = []) :
    (∀ lg, lastGood = some lg →
      (getConsolidatedPrice candidates cfg lastGood now).result =
        .ok ⟨lg.price, lg.priceDecimals, lg.atSec, .frozen, []⟩ ∧
      (getConsolidatedPrice candidates cfg lastGood now).lastGoodAfter =
        some ⟨lg.price, lg.priceDecimals, lg.atSec, .frozen, []⟩) ∧
    (lastGood = none →
      (∃ e, (getConsolidatedPrice candidates cfg lastGood now).result = .error e) ∧
      (getConsolidatedPrice candidates cfg lastGood now).lastGoodAfter = none) := by
  have hf : candidates.filter (fun p => isValid p cfg now) = [] := h
  constructor
  · rintro lg rfl
    constructor <;> simp [getConsolidatedPrice, hf]
  · rintro rfl
    refine ⟨⟨"No valid price and no last-good", ?_⟩, ?_⟩ <;>
      simp [getConsolidatedPrice, hf]

/-- C4 witness: with a single stale Chainlink quote and a stored last-good
at 2000 dollars, the run freezes that exact price; the hypotheses are
discharged at the concrete input. -/
theorem c4_witness :
    validatedOf [quoteStale] cfgDefault t0 = [] ∧
    (getConsolidatedPrice [quoteStale] cfgDefault (some lastGoodNormal) t0).result =
      .ok ⟨lastGoodNormal.price, lastGoodNormal.priceDecimals, lastGoodNormal.atSec,
        .frozen, []⟩ ∧
    (getConsolidatedPrice [quoteStale] cfgDefault (some lastGoodNormal) t0).lastGoodAfter =
      some ⟨lastGoodNormal.price, lastGoodNormal.priceDecimals, lastGoodNormal.atSec,
        .frozen, []⟩ :=
  ⟨by decide,
    (c4_frozen_or_error [quoteStale] cfgDefault (some lastGoodNormal) t0 (by decide)).1
      lastGoodNormal rfl⟩

/-! Claim C7. -/

/-- C7 counterexample: with `epsilon = 1/400000` (0.0000025, within [0, 1]),
price `10^6` and confidence 3, the validator's confidence gate passes —
`Math.round(epsilon * 10^6) = 3` — while the claimed
`confidence × 10^6 ≤ price × floor(epsilon × 10^6)` comparison fails, since
`floor(2.5) = 2`; the gate therefore uses round, not floor. -/
theorem c7_counterexample :
    pythConfidenceOk 3 1000000 ⟨1, 400000⟩ = true ∧
    ¬ SpecSide.confidenceGateFloor 3 1000000 ⟨1, 400000⟩ := by
  constructor
  · decide
  · intro hcon
    simp only [SpecSide.confidenceGateFloor] at hcon
    revert hcon
    decide

/-- C7 amended: for a `bigint` confidence the gate is the exact integer
comparison `confidence × 10^6 ≤ price × round(epsilon × 10^6)` where
`round` is JavaScript `Math.round` (half toward positive infinity) applied
to the binary64 product; equivalently, for positive prices, it accepts
exactly when `confidence / price ≤ round(epsilon × 10^6) / 10^6` as exact
rationals.  (A non-`bigint` confidence takes the floating-point ratio
branch instead and is outside this statement.) -/
theorem c7_amended (confidence price : Int) (epsilon : Frac) (hp : 0 < price) :
    pythConfidenceOk confidence price epsilon = true ↔
      (confidence : ℚ) / (price : ℚ) ≤
        ((jsMathRound (fmul epsilon ⟨1000000, 1⟩) : Int) : ℚ) / 1000000 := by
  unfold pythConfidenceOk
  rw [decide_eq_true_eq,
    div_le_div_iff₀ (by exact_mod_cast hp) (by norm_num : (0 : ℚ) < 1000000)]
  constructor
  · intro h
    have h' : ((confidence * 1000000 : Int) : ℚ) ≤ ((price * jsMathRound (fmul epsilon ⟨1000000, 1⟩) : Int) : ℚ) := by
      exact_mod_cast h
    push_cast at h'
    linarith
  · intro h
    have h' : ((confidence * 1000000 : Int) : ℚ) ≤ ((price * jsMathRound (fmul epsilon ⟨1000000, 1⟩) : Int) : ℚ) := by
      push_cast
      linarith
    exact_mod_cast h'

/-- C7 witness: the amended gate characterization instantiated at the
counterexample's input. -/
theorem c7_witness :
    (0 : Int) < 1000000 ∧
    (pythConfidenceOk 3 1000000 ⟨1, 400000⟩ = true ↔
      ((3 : Int) : ℚ) / ((1000000 : Int) : ℚ) ≤
        ((jsMathRound (fmul ⟨1, 400000⟩ ⟨1000000, 1⟩) : Int) : ℚ) / 1000000) :=
  ⟨by decide, c7_amended 3 1000000 ⟨1, 400000⟩ (by decide)⟩

/-! Claim C5. -/

/-- C5 counterexample: configuring the claimed basis-point amount 5000 on a
`PERCENT` trigger over a balance of `10 × 10^18` yields `500 × 10^18`
units — the code divides `moveAmount` by 100, treating it as a percentage —
not the `5 × 10^18` that `balanceUnits × bps / 10_000` prescribes. -/
theorem c5_counterexample :
    calculateTransferAmount trigPct5000 (10 * 10 ^ 18) = 500 * 10 ^ 18 ∧
    calculateTransferAmount trigPct5000 (10 * 10 ^ 18) ≠
      10 * 10 ^ 18 * 5000 / 10000 := by
  constructor <;> decide

/-- C5 amended: `moveAmount` on a `PERCENT` trigger is a percentage, not
basis points: the evaluator computes
`balance * Math.floor((moveAmount / 100) * 10^6) / 10^6` in `bigint`
arithmetic, so whenever the two floating-point steps are exact
(`Math.floor((m / 100) * 10^6) = m * 10^4`, which holds for example for
every integer percentage up to 2^46), the amount is
`balanceUnits × moveAmount / 100`, i.e. `balanceUnits × (100 × moveAmount)
bps / 10_000`. -/
theorem c5_amended (trigger : Trigger) (balance m : Int)
    (htype : trigger.moveAmountType = .percent)
    (hmv : trigger.moveAmount = ⟨m, 1⟩)
    (hfloor : (fmul (fdiv ⟨m, 1⟩ ⟨100, 1⟩) ⟨1000000, 1⟩).floor = m * 10000)
    (hm : 0 ≤ m) (hb : 0 ≤ balance) :
    calculateTransferAmount trigger balance = balance * m / 100 := by
  simp only [calculateTransferAmount, htype, hmv, hfloor]
  rw [Int.tdiv_eq_ediv (mul_nonneg hb (mul_nonneg hm (by norm_num))) (by norm_num),
    show balance * (m * 10000) = 10000 * (balance * m) by ring,
    show (1000000 : Int) = 10000 * 100 by norm_num,
    Int.mul_ediv_mul_of_pos _ _ (by norm_num : (0 : Int) < 10000)]

/-- C5 witness: the spec's S5 balance with a 50 percent configuration:
`calculateTransferAmount` yields `10 × 10^18 × 50 / 100 = 5 × 10^18`. -/
theorem c5_witness :
    (fmul (fdiv ⟨50, 1⟩ ⟨100, 1⟩) ⟨1000000, 1⟩).floor = 50 * 10000 ∧
    calculateTransferAmount trigBase (10 * 10 ^ 18) = 10 * 10 ^ 18 * 50 / 100 ∧
    (10 * 10 ^ 18 * 50 / 100 : Int) = 5 * 10 ^ 18 :=
  ⟨by decide,
    c5_amended trigBase (10 * 10 ^ 18) 50 rfl rfl (by decide) (by decide) (by decide),
    by decide⟩

/-! Claim C6. -/

/-- C6: the trigger decision is NOT the claimed exact integer
cross-multiplication; it converts the price to a binary64 number.  At price
`2000 × 10^18 − 1` (eighteen decimals, so strictly below 2000 dollars) with
threshold 2000 and zero hysteresis, the conversion rounds the remainder
`10^18 − 1` up to `10^18`, the computed number equals exactly 2000, and the
hot-to-cold trigger fires — while the specification's integer
cross-multiplication (`thresholdUsd × 10^decimals × (10^4 + hysteresisBps)
≤ price × 10^4`) says it must not.  The evaluation below drives the full
evaluator through the binary64 model at this failing input. -/
theorem c6_float_threshold_bug :
    evaluateTrigger trigBase msgJustBelow (10 * 10 ^ 18) [] t0ms = some sigBelow ∧
    ¬ SpecSide.hotToColdFires msgJustBelow.price msgJustBelow.priceDecimals 2000 0 := by
  constructor
  · decide
  · intro hcon
    simp only [SpecSide.hotToColdFires] at hcon
    revert hcon
    decide

/-! Claim C8. -/

/-- C8 counterexample: a signal fires at `t0ms` and its intent is inserted
as `PLANNED` (the broadcast throws); one second later — far inside the
3600-second cooldown — the evaluator fires the same rule again, because
the cooldown clock only consults `MINED_SUCCESS` intents. -/
theorem c8_counterexample :
    evaluateTrigger trigBase msg2500 (10 * 10 ^ 18) [] t0ms = some sig2500 ∧
    (executeTransfer true "0xhot" sig2500 [] t0ms none none).store =
      [intentPlanned2500] ∧
    intentPlanned2500.status = .planned ∧
    (1 : Int) < trigBase.cooldownSec ∧
    evaluateTrigger trigBase msg2500 (10 * 10 ^ 18) [intentPlanned2500]
      (t0ms + 1000) = some sig2500 := by
  refine ⟨by decide, by decide, rfl, by decide, by decide⟩

/-- C8 amended: the cooldown inhibits only relative to the most recent
`MINED_SUCCESS` intent of the rule: whenever the repository-derived
time-since-last-success is below `cooldownSec`, the evaluator yields none;
a fire whose intent has not reached `MINED_SUCCESS` does not inhibit
re-firing. -/
theorem c8_amended (trigger : Trigger) (priceMsg : ConsolidatedPriceMsg)
    (currentBalance : Int) (intents : List Intent) (nowMs ts : Int)
    (h1 : getTimeSinceLastTrigger intents trigger.id nowMs = some ts)
    (h2 : ts < trigger.cooldownSec) :
    evaluateTrigger trigger priceMsg currentBalance intents nowMs = none := by
  by_cases he : trigger.enabled <;>
    simp [evaluateTrigger, h1, h2, he]

/-- C8 witness: one second after a `MINED_SUCCESS` intent, the evaluator is
silent for the same rule. -/
theorem c8_witness :
    getTimeSinceLastTrigger [intentMined] trigBase.id (t0ms + 1000) = some 1 ∧
    (1 : Int) < trigBase.cooldownSec ∧
    evaluateTrigger trigBase msg2500 (10 * 10 ^ 18) [intentMined]
      (t0ms + 1000) = none :=
  ⟨by decide, by decide,
    c8_amended trigBase msg2500 (10 * 10 ^ 18) [intentMined] (t0ms + 1000) 1
      (by decide) (by decide)⟩

/-! Claim C10. -/

/-- C10: the evaluator is total at its interface — it returns a signal or
none (the source's catch-all converts any internal throw into null) — and
a computed transfer amount of exactly zero always yields none. -/
theorem c10_total (trigger : Trigger) (priceMsg : ConsolidatedPriceMsg)
    (currentBalance : Int) (intents : List Intent) (nowMs : Int) :
    (evaluateTrigger trigger priceMsg currentBalance intents nowMs = none ∨
      ∃ s, evaluateTrigger trigger priceMsg currentBalance intents nowMs = some s) ∧
    (calculateTransferAmount trigger currentBalance = 0 →
      evaluateTrigger trigger priceMsg currentBalance intents nowMs = none) := by
  constructor
  · cases h : evaluateTrigger trigger priceMsg currentBalance intents nowMs
    · exact .inl rfl
    · exact .inr ⟨_, rfl⟩
  · intro h0
    simp only [evaluateTrigger, h0]
    split
    · rfl
    · split
      · rfl
      · split
        · rfl
        · simp

/-- C10 witness: a zero-percent trigger computes amount zero and the
evaluator returns none at a price that meets its threshold. -/
theorem c10_witness :
    calculateTransferAmount trigPct0 (10 ^ 18) = 0 ∧
    evaluateTrigger trigPct0 msg2500 (10 ^ 18) [] t0ms = none :=
  ⟨by decide, (c10_total trigPct0 msg2500 (10 ^ 18) [] t0ms).2 (by decide)⟩

/-! Store lemmas shared by the execution-engine claims. -/

/-- The row update of `updateStatus` never changes the key column. -/
theorem applyStatus_idempotencyKey (key : String) (status : IntentStatus)
    (tx : Option String) (i : Intent) :
    (applyStatus key status tx i).idempotencyKey = i.idempotencyKey := by
  unfold applyStatus
  split <;> rfl

/-- Lookup distributes over appending stores. -/
theorem findByIdempotencyKey_append (st₁ st₂ : List Intent) (k : String) :
    findByIdempotencyKey (st₁ ++ st₂) k =
      (findByIdempotencyKey st₁ k).or (findByIdempotencyKey st₂ k) := by
  induction st₁ with
  | nil => simp [findByIdempotencyKey]
  | cons a l ih =>
    by_cases h : (a.idempotencyKey == k) = true
    · simp [findByIdempotencyKey, List.find?_cons_of_pos, h]
    · simp [findByIdempotencyKey, List.find?_cons_of_neg, h, ih]

/-- Lookup after `updateStatus` finds the updated row. -/
theorem findByIdempotencyKey_updateStatus (st : List Intent) (key : String)
    (status : IntentStatus) (tx : Option String) (k : String) :
    findByIdempotencyKey (updateStatus st key status tx) k =
      (findByIdempotencyKey st k).map (applyStatus key status tx) := by
  induction st with
  | nil => rfl
  | cons a l ih =>
    by_cases h : (a.idempotencyKey == k) = true
    · have h' : ((applyStatus key status tx a).idempotencyKey == k) = true := by
        rw [applyStatus_idempotencyKey]; exact h
      unfold updateStatus findByIdempotencyKey
      rw [List.map_cons,
        List.find?_cons_of_pos (p := fun (i : Intent) => i.idempotencyKey == k) _ h',
        List.find?_cons_of_pos (p := fun (i : Intent) => i.idempotencyKey == k) _ h]
      rfl
    · have h' : ¬ ((applyStatus key status tx a).idempotencyKey == k) = true := by
        rw [applyStatus_idempotencyKey]; exact h
      unfold updateStatus findByIdempotencyKey at ih ⊢
      rw [List.map_cons,
        List.find?_cons_of_neg (p := fun (i : Intent) => i.idempotencyKey == k) _ h',
        List.find?_cons_of_neg (p := fun (i : Intent) => i.idempotencyKey == k) _ h]
      exact ih

/-- Row counting distributes over appending stores. -/
theorem countKey_append (st₁ st₂ : List Intent) (k : String) :
    countKey (st₁ ++ st₂) k = countKey st₁ k + countKey st₂ k := by
  simp [countKey, List.filter_append]

/-- `updateStatus` never changes how many rows carry a key. -/
theorem countKey_updateStatus (st : List Intent) (key : String)
    (status : IntentStatus) (tx : Option String) (k : String) :
    countKey (updateStatus st key status tx) k = countKey st k := by
  induction st with
  | nil => rfl
  | cons a l ih =>
    simp only [updateStatus, List.map_cons, countKey, List.filter_cons,
      applyStatus_idempotencyKey] at ih ⊢
    by_cases h : (a.idempotencyKey == k) = true <;> simp [h, ih]

/-- A key that lookup misses counts zero rows. -/
theorem countKey_eq_zero (st : List Intent) (k : String)
    (h : findByIdempotencyKey st k = none) : countKey st k = 0 := by
  induction st with
  | nil => rfl
  | cons a l ih =>
    by_cases ha : (a.idempotencyKey == k) = true
    · unfold findByIdempotencyKey at h
      rw [List.find?_cons_of_pos (p := fun (i : Intent) => i.idempotencyKey == k) _ ha] at h
      cases h
    · unfold findByIdempotencyKey at h
      rw [List.find?_cons_of_neg (p := fun (i : Intent) => i.idempotencyKey == k) _ ha] at h
      simp only [countKey, List.filter_cons]
      simp only [ha, if_false, Bool.false_eq_true]
      exact ih h

/-- Lookup in the one-row store holding the freshly planned intent. -/
theorem findByIdempotencyKey_singleton (i : Intent) (k : String)
    (hi : i.idempotencyKey = k) : findByIdempotencyKey [i] k = some i := by
  simp [findByIdempotencyKey, hi]

/-- Counting in the one-row store holding the freshly planned intent. -/
theorem countKey_singleton (i : Intent) (k : String)
    (hi : i.idempotencyKey = k) : countKey [i] k = 1 := by
  simp [countKey, hi]

/-! Claim C2. -/

/-- A first `executeTransfer` call on a store without the derived key
always inserts exactly one row under that key, attempts exactly one
broadcast, and leaves the row findable. -/
theorem executeTransfer_creates (signal : TriggerSignal) (st : List Intent)
    (addr : String) (nowMs : Int) (sub : Option String) (rcpt : Option Bool)
    (h : findByIdempotencyKey st (generateIdempotencyKey signal) = none) :
    ∃ i, findByIdempotencyKey
        (executeTransfer true addr signal st nowMs sub rcpt).store
        (generateIdempotencyKey signal) = some i ∧
      countKey (executeTransfer true addr signal st nowMs sub rcpt).store
        (generateIdempotencyKey signal) = 1 ∧
      (executeTransfer true addr signal st nowMs sub rcpt).broadcasts = 1 := by
  have hz := countKey_eq_zero st _ h
  rcases sub with _ | tx <;> rcases rcpt with _ | ok <;>
    simp only [executeTransfer, Bool.not_true, Bool.false_eq_true, if_false, h,
      insertPlanned]
  · exact ⟨_, by rw [findByIdempotencyKey_append, h, Option.none_or,
        findByIdempotencyKey_singleton _ _ rfl],
      by rw [countKey_append, hz, countKey_singleton _ _ rfl], trivial⟩
  · exact ⟨_, by rw [findByIdempotencyKey_append, h, Option.none_or,
        findByIdempotencyKey_singleton _ _ rfl],
      by rw [countKey_append, hz, countKey_singleton _ _ rfl], trivial⟩
  · exact ⟨_, by rw [findByIdempotencyKey_updateStatus,
        findByIdempotencyKey_append, h, Option.none_or,
        findByIdempotencyKey_singleton _ _ rfl]; exact rfl,
      by rw [countKey_updateStatus, countKey_append, hz,
        countKey_singleton _ _ rfl], trivial⟩
  · exact ⟨_, by rw [findByIdempotencyKey_updateStatus,
        findByIdempotencyKey_updateStatus, findByIdempotencyKey_append, h,
        Option.none_or, findByIdempotencyKey_singleton _ _ rfl]; exact rfl,
      by rw [countKey_updateStatus, countKey_updateStatus, countKey_append, hz,
        countKey_singleton _ _ rfl], trivial⟩

/-- C2: re-running `executeTransfer` with the same signal derives the same
idempotency key (the key is the same deterministic function of triggerId,
signal timestamp, amount and direction), so the second call finds the row
the first call inserted and re-attaches: the store is unchanged by the
second call, exactly one row carries the key, at most one broadcast was
attempted in total, and the second call returns the stored intent. -/
theorem c2_idempotent_reattach (signal : TriggerSignal) (st : List Intent)
    (addr : String) (now1 now2 : Int) (sub1 sub2 : Option String)
    (rcpt1 rcpt2 : Option Bool)
    (h : findByIdempotencyKey st (generateIdempotencyKey signal) = none) :
    (executeTransfer true addr signal
        (executeTransfer true addr signal st now1 sub1 rcpt1).store
        now2 sub2 rcpt2).store =
      (executeTransfer true addr signal st now1 sub1 rcpt1).store ∧
    countKey (executeTransfer true addr signal st now1 sub1 rcpt1).store
      (generateIdempotencyKey signal) = 1 ∧
    (executeTransfer true addr signal st now1 sub1 rcpt1).broadcasts +
      (executeTransfer true addr signal
        (executeTransfer true addr signal st now1 sub1 rcpt1).store
        now2 sub2 rcpt2).broadcasts ≤ 1 ∧
    ∃ i, findByIdempotencyKey
        (executeTransfer true addr signal st now1 sub1 rcpt1).store
        (generateIdempotencyKey signal) = some i ∧
      (executeTransfer true addr signal
        (executeTransfer true addr signal st now1 sub1 rcpt1).store
        now2 sub2 rcpt2).result = some i := by
  obtain ⟨i, hfind, hcount, hbro⟩ :=
    executeTransfer_creates signal st addr now1 sub1 rcpt1 h
  have h2 : ∀ s : List Intent,
      findByIdempotencyKey s (generateIdempotencyKey signal) = some i →
      executeTransfer true addr signal s now2 sub2 rcpt2 = ⟨some i, s, 0, []⟩ := by
    intro s hs
    simp [executeTransfer, hs]
  rw [h2 _ hfind]
  exact ⟨rfl, hcount, by simp [hbro], ⟨i, hfind, rfl⟩⟩

/-- C2 witness: the idempotency theorem at a concrete signal, with the
first call succeeding end-to-end and the second call re-driven afterwards
with failing chain outcomes. -/
theorem c2_witness :
    (executeTransfer true "0xhot" sigSmall
        (executeTransfer true "0xhot" sigSmall [] 5 (some "0xa") (some true)).store
        9 none none).store =
      (executeTransfer true "0xhot" sigSmall [] 5 (some "0xa") (some true)).store ∧
    countKey (executeTransfer true "0xhot" sigSmall [] 5 (some "0xa") (some true)).store
      (generateIdempotencyKey sigSmall) = 1 ∧
    (executeTransfer true "0xhot" sigSmall [] 5 (some "0xa") (some true)).broadcasts +
      (executeTransfer true "0xhot" sigSmall
        (executeTransfer true "0xhot" sigSmall [] 5 (some "0xa") (some true)).store
        9 none none).broadcasts ≤ 1 ∧
    ∃ i, findByIdempotencyKey
        (executeTransfer true "0xhot" sigSmall [] 5 (some "0xa") (some true)).store
        (generateIdempotencyKey sigSmall) = some i ∧
      (executeTransfer true "0xhot" sigSmall
        (executeTransfer true "0xhot" sigSmall [] 5 (some "0xa") (some true)).store
        9 none none).result = some i :=
  c2_idempotent_reattach sigSmall [] "0xhot" 5 9 (some "0xa") none (some true) none rfl

/-! Claim C9. -/

/-- Write filtering distributes over appended traces. -/
theorem writesFor_append (k : String) (ws₁ ws₂ : List (String × IntentStatus)) :
    writesFor k (ws₁ ++ ws₂) = writesFor k ws₁ ++ writesFor k ws₂ := by
  simp [writesFor, List.filter_append]

/-- Lookup misses a singleton store with a different key. -/
theorem findByIdempotencyKey_singleton_ne (i : Intent) (k : String)
    (h : ¬ (i.idempotencyKey == k) = true) :
    findByIdempotencyKey [i] k = none := by
  simp [findByIdempotencyKey, h]

/-- Presence survives appending rows. -/
theorem present_append_left (st₁ st₂ : List Intent) (k : String)
    (h : present st₁ k) : present (st₁ ++ st₂) k := by
  unfold present at h ⊢
  rw [findByIdempotencyKey_append]
  rcases hf : findByIdempotencyKey st₁ k with _ | i
  · rw [hf] at h; simp at h
  · simp

/-- Presence survives `updateStatus`. -/
theorem present_updateStatus (st : List Intent) (key : String)
    (status : IntentStatus) (tx : Option String) (k : String)
    (h : present st k) : present (updateStatus st key status tx) k := by
  unfold present at h ⊢
  rw [findByIdempotencyKey_updateStatus]
  simpa using h

/-- A call writes nothing under a key that is already present: either the
call's own key matches and it re-attaches without writing, or its writes
are all tagged with a different key. -/
theorem execCall_writes_of_present (c : Call) (st : List Intent) (k : String)
    (h : present st k) : writesFor k (execCall c st).writes = [] := by
  by_cases hs : c.hasSigner = true
  · rcases hf : findByIdempotencyKey st (generateIdempotencyKey c.signal) with _ | i
    · have hkk : ¬ (generateIdempotencyKey c.signal == k) = true := by
        intro hb
        have hke : generateIdempotencyKey c.signal = k := by simpa using hb
        rw [hke] at hf
        unfold present at h
        rw [hf] at h
        simp at h
      rcases hsub : c.submitOutcome with _ | tx <;>
        rcases hrc : c.receiptOutcome with _ | ok <;>
        simp only [execCall, executeTransfer, hs, Bool.not_true,
          Bool.false_eq_true, if_false, hf, hsub, hrc, insertPlanned] <;>
        simp [writesFor, hkk]
    · simp [execCall, executeTransfer, hs, hf, writesFor]
  · have hs' : c.hasSigner = false := by revert hs; cases c.hasSigner <;> simp
    simp [execCall, executeTransfer, hs', writesFor]

/-- A present key stays present across any call. -/
theorem execCall_present_mono (c : Call) (st : List Intent) (k : String)
    (h : present st k) : present (execCall c st).store k := by
  by_cases hs : c.hasSigner = true
  · rcases hf : findByIdempotencyKey st (generateIdempotencyKey c.signal) with _ | i
    · rcases hsub : c.submitOutcome with _ | tx <;>
        rcases hrc : c.receiptOutcome with _ | ok <;>
        simp only [execCall, executeTransfer, hs, Bool.not_true,
          Bool.false_eq_true, if_false, hf, hsub, hrc, insertPlanned]
      · exact present_append_left _ _ _ h
      · exact present_append_left _ _ _ h
      · exact present_updateStatus _ _ _ _ _ (present_append_left _ _ _ h)
      · exact present_updateStatus _ _ _ _ _
          (present_updateStatus _ _ _ _ _ (present_append_left _ _ _ h))
    · simpa [execCall, executeTransfer, hs, hf] using h
  · have hs' : c.hasSigner = false := by revert hs; cases c.hasSigner <;> simp
    simpa [execCall, executeTransfer, hs'] using h

/-- A call on a store missing a key either leaves the key unwritten and
absent, or creates it and writes one of the §4.6 forward paths. -/
theorem execCall_absent (c : Call) (st : List Intent) (k : String)
    (h : ¬ present st k) :
    (writesFor k (execCall c st).writes = [] ∧ ¬ present (execCall c st).store k) ∨
    (writesFor k (execCall c st).writes ∈ allowedStatusPaths ∧
      present (execCall c st).store k) := by
  have hnone : findByIdempotencyKey st k = none := by
    rcases hf : findByIdempotencyKey st k with _ | i
    · rfl
    · exact absurd (by unfold present; rw [hf]; rfl) h
  by_cases hs : c.hasSigner = true
  · rcases hf : findByIdempotencyKey st (generateIdempotencyKey c.signal) with _ | i
    · by_cases hkk : generateIdempotencyKey c.signal = k
      · right
        subst hkk
        constructor
        · rcases hsub : c.submitOutcome with _ | tx
          · simp only [execCall, executeTransfer, hs, Bool.not_true,
              Bool.false_eq_true, if_false, hf, hsub, insertPlanned]
            simp [writesFor]
            decide
          · rcases hrc : c.receiptOutcome with _ | ok
            · simp only [execCall, executeTransfer, hs, Bool.not_true,
                Bool.false_eq_true, if_false, hf, hsub, hrc, insertPlanned]
              simp [writesFor]
              decide
            · cases ok <;>
                simp only [execCall, executeTransfer, hs, Bool.not_true,
                  Bool.false_eq_true, if_false, hf, hsub, hrc, insertPlanned] <;>
                simp [writesFor] <;> decide
        · rcases hsub : c.submitOutcome with _ | tx <;>
            rcases hrc : c.receiptOutcome with _ | ok <;>
            simp only [execCall, executeTransfer, hs, Bool.not_true,
              Bool.false_eq_true, if_false, hf, hsub, hrc, insertPlanned] <;>
            unfold present
          · rw [findByIdempotencyKey_append, hf, Option.none_or,
              findByIdempotencyKey_singleton _ _ rfl]
            rfl
          · rw [findByIdempotencyKey_append, hf, Option.none_or,
              findByIdempotencyKey_singleton _ _ rfl]
            rfl
          · rw [findByIdempotencyKey_updateStatus, findByIdempotencyKey_append,
              hf, Option.none_or, findByIdempotencyKey_singleton _ _ rfl]
            rfl
          · rw [findByIdempotencyKey_updateStatus,
              findByIdempotencyKey_updateStatus, findByIdempotencyKey_append,
              hf, Option.none_or, findByIdempotencyKey_singleton _ _ rfl]
            rfl
      · left
        have hbk : ¬ (generateIdempotencyKey c.signal == k) = true := by
          simpa using hkk
        constructor
        · rcases hsub : c.submitOutcome with _ | tx <;>
            rcases hrc : c.receiptOutcome with _ | ok <;>
            simp only [execCall, executeTransfer, hs, Bool.not_true,
              Bool.false_eq_true, if_false, hf, hsub, hrc, insertPlanned] <;>
            simp [writesFor, hbk]
        · rcases hsub : c.submitOutcome with _ | tx <;>
            rcases hrc : c.receiptOutcome with _ | ok <;>
            simp only [execCall, executeTransfer, hs, Bool.not_true,
              Bool.false_eq_true, if_false, hf, hsub, hrc, insertPlanned] <;>
            unfold present
          · rw [findByIdempotencyKey_append, hnone, Option.none_or,
              findByIdempotencyKey_singleton_ne _ _ hbk]
            simp
          · rw [findByIdempotencyKey_append, hnone, Option.none_or,
              findByIdempotencyKey_singleton_ne _ _ hbk]
            simp
          · rw [findByIdempotencyKey_updateStatus, findByIdempotencyKey_append,
              hnone, Option.none_or, findByIdempotencyKey_singleton_ne _ _ hbk]
            simp
          · rw [findByIdempotencyKey_updateStatus,
              findByIdempotencyKey_updateStatus, findByIdempotencyKey_append,
              hnone, Option.none_or, findByIdempotencyKey_singleton_ne _ _ hbk]
            simp
    · left
      refine ⟨by simp [execCall, executeTransfer, hs, hf, writesFor], ?_⟩
      simpa [execCall, executeTransfer, hs, hf] using h
  · have hs' : c.hasSigner = false := by revert hs; cases c.hasSigner <;> simp
    left
    refine ⟨by simp [execCall, executeTransfer, hs', writesFor], ?_⟩
    simpa [execCall, executeTransfer, hs'] using h

/-- After a key is present, no later call ever writes it again. -/
theorem runCalls_writes_of_present (cs : List Call) (st : List Intent)
    (k : String) (h : present st k) :
    writesFor k (runCalls cs st).2 = [] := by
  induction cs generalizing st with
  | nil => rfl
  | cons c cs ih =>
    simp only [runCalls]
    rw [writesFor_append, execCall_writes_of_present c st k h,
      ih _ (execCall_present_mono c st k h)]
    rfl

/-- C9: over any sequence of engine calls from any starting store, the
statuses written for any one intent form one of the forward paths of the
§4.6 graph — `PLANNED`, then optionally `SUBMITTED`, then optionally one
terminal `MINED_SUCCESS`/`MINED_FAILED` — so no write moves a status
backward, no transition leaves the graph, and a terminal status is never
overwritten. -/
theorem c9_status_monotone (cs : List Call) (st : List Intent) (k : String) :
    writesFor k (runCalls cs st).2 ∈ allowedStatusPaths := by
  induction cs generalizing st with
  | nil =>
    have hnil : writesFor k (runCalls [] st).2 = [] := rfl
    rw [hnil]
    decide
  | cons c cs ih =>
    simp only [runCalls]
    rw [writesFor_append]
    by_cases hp : present st k
    · rw [execCall_writes_of_present c st k hp,
        runCalls_writes_of_present cs _ k (execCall_present_mono c st k hp)]
      decide
    · rcases execCall_absent c st k hp with ⟨hw, -⟩ | ⟨hmem, hpres⟩
      · rw [hw]
        simpa using ih _
      · rw [runCalls_writes_of_present cs _ k hpres]
        simpa using hmem
